import Mathlib

/-!
Verification of `src/dynamic_string.rs` (`DynamicString::new`): the template
compiler that splits an input string into static and dynamic segments, and the
reactive aggregation that keeps a composition buffer of one string slot per
segment and republishes the join on every primary-output update.

The Rust code is shallowly embedded: the parse loop works on the `Vec<char>`
`chars`, with `none` modelling a Rust panic (`&chars[..=1]` out of bounds,
`assert_ne!(skip, 0)`, or `chars.drain(..skip)` with `skip` past the end).
Byte lengths (`String::len`) are modelled by `utf8Len`.
-/

namespace DynString

/-- A compiled template segment (`DynamicStringSegment` in the source).
`Static` carries literal text; `Dynamic` carries the raw expression source
that the source wraps in a `Script` handle (per the spec the handle carries
exactly the raw expression source, so it is modelled by that string). -/
inductive Segment where
  | Static (text : String)
  | Dynamic (expr : String)
  deriving DecidableEq

/-- Rust `String::len` of the collected characters: total UTF-8 byte length.
The source computes `let len = str.len();` on the collected `String` and uses
it as the cursor advance over the `Vec<char>`. -/
def utf8Len (cs : List Char) : Nat :=
  (cs.map Char.utf8Size).sum

/-- The dynamic-branch collector: `chars.iter().skip(2).enumerate()
.take_while(|(i, &c)| c != '\x7d' && chars[i + 1] != '\x7d')`.
`i` is the post-`skip(2)` enumeration index while `chars` is the full vector,
and `&&` short-circuits, so `chars[i + 1]` is read only when `c` is not a
closing brace; `none` models the panicking index `chars[i + 1]`. -/
def dynCollect (chars : List Char) : Nat → List Char → Option (List Char)
  | _, [] => some []
  | i, c :: rest =>
    if c = '\x7d' then some []
    else
      match chars.get? (i + 1) with
      | none => none
      | some d =>
        if d = '\x7d' then some []
        else (dynCollect chars (i + 1) rest).map (fun cs => c :: cs)

/-- The static-branch collector: `chars.iter().enumerate()
.take_while(|(i, &c)| !(c == '\x7b' && chars[i + 1] == '\x7b'))`.
`&&` short-circuits, so `chars[i + 1]` is read only when `c` is an opening
brace; `none` models the panicking index `chars[i + 1]`. -/
def staticCollect (chars : List Char) : Nat → List Char → Option (List Char)
  | _, [] => some []
  | i, c :: rest =>
    if c = '\x7b' then
      match chars.get? (i + 1) with
      | none => none
      | some d =>
        if d = '\x7b' then some []
        else (staticCollect chars (i + 1) rest).map (fun cs => c :: cs)
    else (staticCollect chars (i + 1) rest).map (fun cs => c :: cs)

/-- One iteration of the parse loop body: reads `&chars[..=1]` (panic, i.e.
`none`, when fewer than two characters remain), then either the dynamic branch
(token plus `skip = len + SKIP_BRACKETS` with `SKIP_BRACKETS = 4`) or the
static branch (token plus `skip = len`), `len` being the UTF-8 byte length. -/
def compileStep (chars : List Char) : Option (Segment × Nat) :=
  match chars with
  | c0 :: c1 :: _ =>
    if c0 = '\x7b' ∧ c1 = '\x7b' then
      match dynCollect chars 0 (chars.drop 2) with
      | none => none
      | some cs => some (Segment.Dynamic (String.mk cs), utf8Len cs + 4)
    else
      match staticCollect chars 0 chars with
      | none => none
      | some cs => some (Segment.Static (String.mk cs), utf8Len cs)
  | _ => none

/-- The `while !chars.is_empty()` loop.  `fuel` only bounds the recursion so
that the definition is structural; `compile` passes the character count, which
suffices because every successful step skips at least one character
(`compileLoop_fuel` shows any fuel of at least the character count gives the
same result).  After each step the loop checks `assert_ne!(skip, 0)` and runs
`chars.drain(..skip)`, which panics (`none`) when `skip` exceeds the number of
remaining characters. -/
def compileLoop : Nat → List Char → Option (List Segment)
  | _, [] => some []
  | 0, _ :: _ => none
  | fuel + 1, c :: cs =>
    match compileStep (c :: cs) with
    | none => none
    | some (tok, skip) =>
      if skip = 0 then none
      else if (c :: cs).length < skip then none
      else (compileLoop fuel ((c :: cs).drop skip)).map (fun segs => tok :: segs)

/-- The compilation phase of `DynamicString::new`: run the parse loop over
`input.chars().collect::<Vec<_>>()`.  `some segs` is the segment list built
when no panic occurs; `none` means the Rust code panics on this input. -/
def compile (input : String) : Option (List Segment) :=
  compileLoop input.data.length input.data

/-- The per-segment initial slot value of the composition buffer
(`label_parts`): a static segment pushes its literal text, a dynamic segment
pushes a blank value to preserve segment order. -/
def initSlot : Segment → String
  | Segment.Static s => s
  | Segment.Dynamic _ => ""

/-- The composition buffer right after the construction loop over
`segments.into_iter().enumerate()`: one slot per segment, in order. -/
def initBuffer (segs : List Segment) : List String :=
  segs.map initSlot

/-- Modelled from the spec: the external execution engine (`crate::script`,
not part of the sources under study) classifies each output event by stream
kind — primary output (`Stdout`), which the core reacts to, or diagnostic
output (`Stderr`), which it ignores — together with a string payload. -/
inductive OutputStream where
  | Stdout (s : String)
  | Stderr (s : String)
  deriving DecidableEq

/-- The producer callback for slot `i` (the closure passed to `script.run`;
the second tuple component of the event is discarded by the pattern
`(out, _)` of the closure).  On a primary-output event it overwrites slot `i`,
joins all slots with the empty separator, and sends the join on the channel
(modelled by the returned `some` value); on any other event it does
nothing. -/
def handleEvent (i : Nat) (buf : List String) (out : OutputStream) :
    List String × Option String :=
  match out with
  | OutputStream.Stdout o =>
    let buf2 := buf.set i o
    (buf2, some (String.join buf2))
  | OutputStream.Stderr _ => (buf, none)

/-- Run a serialized sequence of producer events (the mutex on `label_parts`
serializes concurrent producers into some order) through `handleEvent`,
returning the final buffer and the list of published strings in channel
order. -/
def runEvents (buf : List String) : List (Nat × OutputStream) → List String × List String
  | [] => (buf, [])
  | e :: es =>
    let he := handleEvent e.1 buf e.2
    let r := runEvents he.1 es
    (r.1, he.2.toList ++ r.2)

/-- A sequence of primary-output updates, written as (slot, payload) pairs. -/
def primaryEvents (updates : List (Nat × String)) : List (Nat × OutputStream) :=
  updates.map (fun u => (u.1, OutputStream.Stdout u.2))

/-- The most recent payload written for slot `i` in an update sequence
(later updates win). -/
def lastWritten : List (Nat × String) → Nat → Option String
  | [], _ => none
  | u :: us, i =>
    match lastWritten us i with
    | some v => some v
    | none => if u.1 = i then some u.2 else none

/-- An update is valid when it targets an existing slot whose segment is
dynamic: the source spawns a producer exactly for each `Dynamic` segment,
bound to the index of that segment. -/
def validUpdate (segs : List Segment) (u : Nat × String) : Bool :=
  match segs.get? u.1 with
  | some (Segment.Dynamic _) => true
  | _ => false

/-- The stream of strings each primary-output update sends on the channel:
after each update the buffer is joined while the lock is held, so the `k`-th
publish is the join of the buffer after the first `k` updates. -/
def publishList (buf : List String) : List (Nat × String) → List String
  | [] => []
  | u :: us => String.join (buf.set u.1 u.2) :: publishList (buf.set u.1 u.2) us

/-! ### Helper lemmas about the compiler -/

theorem utf8Len_cons_pos (c : Char) (cs : List Char) : 0 < utf8Len (c :: cs) := by
  have h := Char.utf8Size_pos c
  simp only [utf8Len, List.map_cons, List.sum_cons]
  omega

theorem staticCollect_cons (c0 c1 : Char) (rest : List Char)
    (hbr : ¬(c0 = '\x7b' ∧ c1 = '\x7b')) (cs : List Char)
    (h : staticCollect (c0 :: c1 :: rest) 0 (c0 :: c1 :: rest) = some cs) :
    ∃ ds, cs = c0 :: ds := by
  simp only [staticCollect, List.get?_cons_succ, List.get?_cons_zero] at h
  by_cases hc0 : c0 = '\x7b'
  · rw [if_pos hc0] at h
    by_cases hc1 : c1 = '\x7b'
    · exact absurd ⟨hc0, hc1⟩ hbr
    · rw [if_neg hc1] at h
      obtain ⟨ds, _, hcs⟩ := Option.map_eq_some'.mp h
      exact ⟨ds, hcs.symm⟩
  · rw [if_neg hc0] at h
    obtain ⟨ds, _, hcs⟩ := Option.map_eq_some'.mp h
    exact ⟨ds, hcs.symm⟩

theorem compileStep_cases (chars : List Char) (tok : Segment) (skip : Nat)
    (h : compileStep chars = some (tok, skip)) :
    (∃ e, tok = Segment.Dynamic e ∧ 4 ≤ skip) ∨
    (∃ d ds, tok = Segment.Static (String.mk (d :: ds)) ∧ 0 < skip) := by
  match chars with
  | [] => simp [compileStep] at h
  | [c] => simp [compileStep] at h
  | c0 :: c1 :: rest =>
    rw [compileStep] at h
    by_cases hbr : c0 = '\x7b' ∧ c1 = '\x7b'
    · rw [if_pos hbr] at h
      cases hd : dynCollect (c0 :: c1 :: rest) 0 ((c0 :: c1 :: rest).drop 2) with
      | none => rw [hd] at h; simp at h
      | some cs =>
        rw [hd] at h
        rw [Option.some.injEq, Prod.mk.injEq] at h
        obtain ⟨htok, hskip⟩ := h
        exact Or.inl ⟨String.mk cs, htok.symm, by omega⟩
    · rw [if_neg hbr] at h
      cases hs : staticCollect (c0 :: c1 :: rest) 0 (c0 :: c1 :: rest) with
      | none => rw [hs] at h; simp at h
      | some cs =>
        rw [hs] at h
        rw [Option.some.injEq, Prod.mk.injEq] at h
        obtain ⟨htok, hskip⟩ := h
        obtain ⟨ds, rfl⟩ := staticCollect_cons c0 c1 rest hbr cs hs
        exact Or.inr ⟨c0, ds, htok.symm, hskip ▸ utf8Len_cons_pos c0 ds⟩

theorem compileLoop_static_nonempty :
    ∀ (fuel : Nat) (chars : List Char) (segs : List Segment),
      compileLoop fuel chars = some segs →
      ∀ t, Segment.Static t ∈ segs → t ≠ "" := by
  intro fuel
  induction fuel with
  | zero =>
    intro chars segs h t ht
    cases chars with
    | nil =>
      rw [compileLoop] at h
      rw [Option.some.injEq] at h
      subst h
      simp at ht
    | cons c cs => rw [compileLoop] at h; simp at h
  | succ fuel ih =>
    intro chars segs h t ht
    cases chars with
    | nil =>
      rw [compileLoop] at h
      rw [Option.some.injEq] at h
      subst h
      simp at ht
    | cons c cs =>
      rw [compileLoop] at h
      cases hstep : compileStep (c :: cs) with
      | none => rw [hstep] at h; simp at h
      | some p =>
        obtain ⟨tok, skip⟩ := p
        rw [hstep] at h
        simp only at h
        by_cases h0 : skip = 0
        · rw [if_pos h0] at h; simp at h
        · rw [if_neg h0] at h
          by_cases hlen : (c :: cs).length < skip
          · rw [if_pos hlen] at h; simp at h
          · rw [if_neg hlen] at h
            obtain ⟨rest, hrest, hsegs⟩ := Option.map_eq_some'.mp h
            subst hsegs
            rcases List.mem_cons.mp ht with htok | htr
            · rcases compileStep_cases _ _ _ hstep with ⟨e, rfl, _⟩ | ⟨d, ds, rfl, _⟩
              · exact absurd htok (by simp)
              · rw [Segment.Static.injEq] at htok
                subst htok
                intro hemp
                have := congrArg String.data hemp
                simp at this
            · exact ih _ _ hrest t htr

/-- Any fuel of at least the remaining character count gives the parse loop
the same result, so passing `input.data.length` in `compile` loses nothing:
the fuel is an artifact of the embedding, justified by the fact that every
successful iteration strictly shrinks `chars` (the property of claim C9). -/
theorem compileLoop_fuel :
    ∀ (f1 : Nat) (chars : List Char) (f2 : Nat),
      chars.length ≤ f1 → chars.length ≤ f2 →
      compileLoop f1 chars = compileLoop f2 chars := by
  intro f1
  induction f1 with
  | zero =>
    intro chars f2 h1 h2
    cases chars with
    | nil => cases f2 <;> rfl
    | cons c cs => simp at h1
  | succ f ih =>
    intro chars f2 h1 h2
    cases chars with
    | nil => cases f2 <;> rfl
    | cons c cs =>
      cases f2 with
      | zero => simp at h2
      | succ g =>
        simp only [compileLoop]
        cases hstep : compileStep (c :: cs) with
        | none => rfl
        | some p =>
          obtain ⟨tok, skip⟩ := p
          simp only
          by_cases h0 : skip = 0
          · rw [if_pos h0, if_pos h0]
          · rw [if_neg h0, if_neg h0]
            by_cases hlen : (c :: cs).length < skip
            · rw [if_pos hlen, if_pos hlen]
            · rw [if_neg hlen, if_neg hlen]
              have hrec := ih ((c :: cs).drop skip) g
                (by rw [List.length_drop]; simp only [List.length_cons] at h1 ⊢; omega)
                (by rw [List.length_drop]; simp only [List.length_cons] at h2 ⊢; omega)
              rw [hrec]

/-! ### Helper lemmas about the aggregator -/

theorem initBuffer_get? (segs : List Segment) (j : Nat) :
    (initBuffer segs).get? j = (segs.get? j).map initSlot :=
  List.get?_map initSlot segs j

theorem primaryEvents_cons (u : Nat × String) (us : List (Nat × String)) :
    primaryEvents (u :: us) = (u.1, OutputStream.Stdout u.2) :: primaryEvents us := rfl

theorem runEvents_primary_eq :
    ∀ (updates : List (Nat × String)) (buf : List String),
      runEvents buf (primaryEvents updates)
        = (updates.foldl (fun b u => b.set u.1 u.2) buf, publishList buf updates) := by
  intro updates
  induction updates with
  | nil => intro buf; rfl
  | cons u us ih =>
    intro buf
    rw [primaryEvents_cons]
    simp only [runEvents, handleEvent, Option.toList, List.foldl_cons, publishList]
    rw [ih (buf.set u.1 u.2)]
    rfl

theorem foldlSet_get? :
    ∀ (updates : List (Nat × String)) (buf : List String) (j : Nat), j < buf.length →
      (updates.foldl (fun b u => b.set u.1 u.2) buf).get? j
        = match lastWritten updates j with
          | some v => some v
          | none => buf.get? j := by
  intro updates
  induction updates with
  | nil => intro buf j hj; rfl
  | cons u us ih =>
    intro buf j hj
    rw [List.foldl_cons]
    have hj' : j < (buf.set u.1 u.2).length := by simpa using hj
    rw [ih (buf.set u.1 u.2) j hj']
    cases hlw : lastWritten us j with
    | some v => simp [lastWritten, hlw]
    | none =>
      simp only [lastWritten, hlw]
      by_cases hu : u.1 = j
      · subst hu
        simp only [if_pos rfl]
        exact List.get?_set_eq_of_lt u.2 hj
      · simp only [if_neg hu]
        exact List.get?_set_ne u.2 buf hu

theorem lastWritten_eq_none :
    ∀ (updates : List (Nat × String)) (j : Nat),
      (∀ u ∈ updates, u.1 ≠ j) → lastWritten updates j = none := by
  intro updates
  induction updates with
  | nil => intro j _; rfl
  | cons u us ih =>
    intro j h
    have hus := ih j (fun v hv => h v (List.mem_cons_of_mem u hv))
    have hu := h u (List.mem_cons_self u us)
    simp [lastWritten, hus, hu]

theorem publishList_getLast :
    ∀ (updates : List (Nat × String)) (buf : List String), updates ≠ [] →
      (publishList buf updates).getLast?
        = some (String.join (updates.foldl (fun b u => b.set u.1 u.2) buf)) := by
  intro updates
  induction updates with
  | nil => intro buf h; exact absurd rfl h
  | cons u us ih =>
    intro buf _
    cases us with
    | nil => rfl
    | cons v vs => exact ih (buf.set u.1 u.2) (by simp)

/-- Sanity check, the motivating scenario of the spec: `"Uptime: \x7b\x7buptime -p\x7d\x7d"`
compiles to a static and a dynamic segment. -/
theorem uptime_scenario :
    compile "Uptime: \x7b\x7buptime -p\x7d\x7d"
      = some [Segment.Static "Uptime: ", Segment.Dynamic "uptime -p"] := by
  decide

/-- Sanity check, the interleaving scenario of the spec for `"\x7b\x7bx\x7d\x7d-\x7b\x7by\x7d\x7d"`:
updates `x:=1`, `y:=2`, `x:=3` give the publish sequence `1-`, `1-2`, `3-2`. -/
theorem interleaving_scenario :
    runEvents (initBuffer [Segment.Dynamic "x", Segment.Static "-", Segment.Dynamic "y"])
      (primaryEvents [(0, "1"), (2, "2"), (0, "3")])
    = (["3", "-", "2"], ["1-", "1-2", "3-2"]) := by
  decide

/-! ### The claims -/

/-- Claim C1 is refuted by the code: on `"\x7b\x7ba\x7db\x7d\x7d"` the
collector stops at the first closing brace of the body (the `take_while`
condition `c != eof-brace && chars[i+1] != eof-brace` is the De Morgan
negation of the specified "current is a closing brace AND the next one is too",
with `chars[i+1]` additionally misaligned after `skip(2)`), so instead of one
dynamic segment with expression text `a\x7db` the code produces the dynamic
segment `a` followed by the static segment `\x7d\x7d`. -/
theorem c1_lone_brace_splits :
    compile "\x7b\x7ba\x7db\x7d\x7d"
      = some [Segment.Dynamic "a", Segment.Static "\x7d\x7d"] := by
  decide

/-- Claim C2 is refuted by the code: the cursor advance is the UTF-8 byte
length `str.len()` of the collected text, applied to the `Vec<char>`, so the
two-character static template `"éé"` computes `skip = 4` with only two
characters remaining and `chars.drain(..4)` panics (modelled by `none`)
instead of compiling to a single static segment. -/
theorem c2_multibyte_panics : compile "éé" = none := by
  decide

/-- Claim C3 is refuted by the code: an unterminated expression collects to
end-of-input but then advances by `len + 4`, which exceeds the remaining
character count, so `chars.drain(..skip)` panics (modelled by `none`): the
input `"\x7b\x7bunterminated"` does not compile to a dynamic segment. -/
theorem c3_unterminated_panics : compile "\x7b\x7bunterminated" = none := by
  decide

/-- Claim C4 is refuted by the code: the loop reads `&chars[..=1]` before
testing anything, which needs two remaining characters, so the one-character
template `"a"` panics (modelled by `none`) instead of compiling to a single
static segment equal to the input. -/
theorem c4_single_char_panics : compile "a" = none := by
  decide

/-- Claim C6: for every compiled segment list and every serialized finite
sequence of primary-output updates to dynamic slots, slot `i` of the
composition buffer holds the most recent value written for segment `i` — for
a static slot its literal text, for a dynamic slot its last payload, or the
blank initial value if none arrived — and the string published after the
last update is the join of all slots in original template order. -/
theorem c6_slots_and_publish (segs : List Segment) (updates : List (Nat × String))
    (hv : ∀ u ∈ updates, validUpdate segs u = true) :
    (∀ j seg, segs.get? j = some seg →
        (runEvents (initBuffer segs) (primaryEvents updates)).1.get? j
          = some ((lastWritten updates j).getD (initSlot seg))) ∧
    (∀ j s, segs.get? j = some (Segment.Static s) →
        (runEvents (initBuffer segs) (primaryEvents updates)).1.get? j = some s) ∧
    (updates ≠ [] →
        (runEvents (initBuffer segs) (primaryEvents updates)).2.getLast?
          = some (String.join (runEvents (initBuffer segs) (primaryEvents updates)).1)) := by
  have hbuf := runEvents_primary_eq updates (initBuffer segs)
  have hlen : (initBuffer segs).length = segs.length := by
    simp [initBuffer]
  refine ⟨?_, ?_, ?_⟩
  · intro j seg hj
    obtain ⟨hjs, -⟩ := List.get?_eq_some.mp hj
    have hjb : j < (initBuffer segs).length := by omega
    rw [hbuf]
    simp only
    rw [foldlSet_get? updates (initBuffer segs) j hjb]
    cases hlw : lastWritten updates j with
    | some v => simp
    | none =>
      show (initBuffer segs).get? j = some (initSlot seg)
      rw [initBuffer_get?, hj]
      rfl
  · intro j s hj
    obtain ⟨hjs, -⟩ := List.get?_eq_some.mp hj
    have hjb : j < (initBuffer segs).length := by omega
    have hj2 : segs[j]? = some (Segment.Static s) := by
      rw [← List.get?_eq_getElem?]
      exact hj
    have hnone : lastWritten updates j = none := by
      apply lastWritten_eq_none
      intro u hu heq
      have hval := hv u hu
      simp [validUpdate, heq, hj2] at hval
    rw [hbuf]
    simp only
    rw [foldlSet_get? updates (initBuffer segs) j hjb, hnone]
    show (initBuffer segs).get? j = some s
    rw [initBuffer_get?, hj]
    rfl
  · intro hne
    rw [hbuf]
    simp only
    exact publishList_getLast updates (initBuffer segs) hne

/-- Witness for claim C6, the interleaving scenario of the spec. -/
theorem c6_slots_and_publish_witness :
    (runEvents (initBuffer [Segment.Dynamic "x", Segment.Static "-", Segment.Dynamic "y"])
        (primaryEvents [(0, "1"), (2, "2"), (0, "3")])).2.getLast?
      = some (String.join (runEvents
          (initBuffer [Segment.Dynamic "x", Segment.Static "-", Segment.Dynamic "y"])
          (primaryEvents [(0, "1"), (2, "2"), (0, "3")])).1) :=
  (c6_slots_and_publish [Segment.Dynamic "x", Segment.Static "-", Segment.Dynamic "y"]
      [(0, "1"), (2, "2"), (0, "3")] (by decide)).2.2 (by decide)

/-- Claim C7: `"\x7b\x7ba\x7d\x7d\x7b\x7bb\x7d\x7d"` compiles to exactly two
dynamic segments with expression texts `a` and `b` and no intervening static
segment, and the empty template compiles to the empty segment sequence. -/
theorem c7_boundary :
    compile "\x7b\x7ba\x7d\x7d\x7b\x7bb\x7d\x7d"
        = some [Segment.Dynamic "a", Segment.Dynamic "b"] ∧
    compile "" = some [] := by
  constructor <;> decide

/-- Claim C8: an output event whose stream kind is not primary output leaves
every slot of the composition buffer unchanged and does not invoke the sink;
only a primary-output event overwrites its slot `i` and publishes the join of
the updated buffer. -/
theorem c8_frame (i : Nat) (buf : List String) (s : String) :
    handleEvent i buf (OutputStream.Stderr s) = (buf, none) ∧
    handleEvent i buf (OutputStream.Stdout s)
      = (buf.set i s, some (String.join (buf.set i s))) :=
  ⟨rfl, rfl⟩

/-- Claim C9: every successful iteration of the compile loop advances the
cursor by at least one position (and a dynamic step by at least 4), because
the static branch is only taken when the next two characters are not the open
delimiter and therefore collects at least its first character; hence the
`assert_ne!(skip, 0)` assertion never fires and the loop never revisits a
position. -/
theorem c9_step_advances (chars : List Char) (tok : Segment) (skip : Nat)
    (h : compileStep chars = some (tok, skip)) :
    0 < skip ∧ (∀ e, tok = Segment.Dynamic e → 4 ≤ skip) := by
  rcases compileStep_cases chars tok skip h with ⟨e, rfl, h4⟩ | ⟨d, ds, rfl, hpos⟩
  · exact ⟨by omega, fun _ _ => h4⟩
  · refine ⟨hpos, ?_⟩
    intro e he
    exact absurd he (by simp)

/-- Witness for claim C9 at the concrete input `"ab"`. -/
theorem c9_step_advances_witness :
    compileStep ['a', 'b'] = some (Segment.Static "ab", 2) ∧ 0 < 2 :=
  ⟨by decide, (c9_step_advances ['a', 'b'] (Segment.Static "ab") 2 (by decide)).1⟩

/-- Claim C10: the compiler never emits an empty static segment — every
static segment in a successfully compiled segment list contains at least one
character, so no empty static slot sits between back-to-back dynamic
segments. -/
theorem c10_no_empty_static (input : String) (segs : List Segment)
    (h : compile input = some segs) :
    ∀ t, Segment.Static t ∈ segs → t ≠ "" :=
  compileLoop_static_nonempty input.data.length input.data segs h

/-- Witness for claim C10 at the concrete input `"ab"`. -/
theorem c10_no_empty_static_witness :
    compile "ab" = some [Segment.Static "ab"] ∧
    Segment.Static "ab" ∈ [Segment.Static "ab"] ∧ "ab" ≠ "" :=
  ⟨by decide, by decide,
   c10_no_empty_static "ab" [Segment.Static "ab"] (by decide) "ab" (by decide)⟩

end DynString
